import Mathlib

/-!
Verification of the fib repository (package fib, six Fibonacci variants).

The Go functions are embedded shallowly. Inputs are natural numbers (the
spec defines behaviour only for nonnegative inputs). Values of the Go type
int are modelled as mathematical integers together with an explicit
two's-complement reduction wrap at 64 bits, applied at every arithmetic
operation of the source, so silent overflow is represented faithfully.
Fallible operations (the out-of-range slice accesses that make Go panic)
are modelled in the Option monad, with none standing for a panic.
Nat.fib is the mathematical reference sequence F with F(0) = 0, F(1) = 1.
-/

set_option maxRecDepth 100000

namespace Fib

/-- Two's-complement wrap-around of a 64-bit signed integer: the unique
value congruent to x modulo 2^64 lying in the interval from -2^63
(inclusive) to 2^63 (exclusive). Every addition and multiplication the Go
code performs on values of type int is followed by this reduction. -/
def wrap (x : ℤ) : ℤ := (x + 2 ^ 63) % 2 ^ 64 - 2 ^ 63

/-- FibRecursive from fib.go. The source reads:
if n is less than 2, return n; otherwise return
FibRecursive(n-1) + FibRecursive(n-2). The two base patterns 0 and 1
spell out the branch n < 2 returning n itself; the sum is wrapped as Go
int addition is. -/
def FibRecursive : ℕ → ℤ
  | 0 => 0
  | 1 => 1
  | n + 2 => wrap (FibRecursive (n + 1) + FibRecursive n)

/-- Go slice write cache[i] = v: succeeds exactly when i is within the
length of the slice, as in Go, where an out-of-range index panics
(modelled by none). -/
def setAt (l : List ℤ) (i : ℕ) (v : ℤ) : Option (List ℤ) :=
  if i < l.length then some (l.set i v) else none

/-- fibRecursiveCache from fib.go, the recursive helper mutating the
cache slice through a pointer. For n < 2 (patterns 0 and 1) it writes
cache[0] = 0 and then cache[1] = 1 — unconditionally, even when the slice
is shorter than 2. Otherwise it recurses on n-1 and then writes
cache[n] = cache[n-1] + cache[n-2]; for the pattern n+2 those indices are
n+1 and n. Reads and writes are in the Option monad so an out-of-range
access (a Go panic) yields none. -/
def fibRecursiveCache : ℕ → List ℤ → Option (List ℤ)
  | 0, cache => do
    let c ← setAt cache 0 0
    setAt c 1 1
  | 1, cache => do
    let c ← setAt cache 0 0
    setAt c 1 1
  | n + 2, cache => do
    let c ← fibRecursiveCache (n + 1) cache
    let a ← c.get? (n + 1)
    let b ← c.get? n
    setAt c (n + 2) (wrap (a + b))

/-- FibRecursiveCache from fib.go: allocates the zero-filled slice
make([]int, n+1, n+1), runs the helper on it, and returns cache[n]. -/
def FibRecursiveCache (n : ℕ) : Option ℤ := do
  let cache := List.replicate (n + 1) 0
  let c ← fibRecursiveCache n cache
  c.get? n

/-- fibTailRecursive from fib.go: if n == 0, return first; otherwise
recurse on n-1 with the accumulator pair shifted to
(second, first+second). The sum is wrapped Go int addition. -/
def fibTailRecursive : ℕ → ℤ → ℤ → ℤ
  | 0, first, _ => first
  | n + 1, first, second => fibTailRecursive n second (wrap (first + second))

/-- FibTailRecursive from fib.go: calls the helper with (n, 0, 1). -/
def FibTailRecursive (n : ℕ) : ℤ := fibTailRecursive n 0 1

/-- The body of the for loop of FibIterative, iterated k times on the
state (first, second): temp = second; second = first + second;
first = temp. Returns the final second. -/
def fibIterLoop : ℕ → ℤ → ℤ → ℤ
  | 0, _, second => second
  | k + 1, first, second => fibIterLoop k second (wrap (first + second))

/-- FibIterative from fib.go: first = 0, second = 1, then the loop
for i := 0; i < n-1; i++ runs its body. For a nonnegative Go int n the
trip count of that loop is n-1 when n is at least 1 and 0 when n = 0,
which is exactly truncated subtraction n - 1 on naturals. -/
def FibIterative (n : ℕ) : ℤ := fibIterLoop (n - 1) 0 1

/-- A 2x2 matrix of Go int values, the [2][2]int array of the matrix
variants. -/
structure Mat where
  m00 : ℤ
  m01 : ℤ
  m10 : ℤ
  m11 : ℤ
deriving DecidableEq

/-- The base matrix [[1,1],[1,0]] that both matrix variants build. -/
def baseM : Mat := ⟨1, 1, 1, 0⟩

/-- fibMultiply from the repository: it first copies both pointed-to
arrays into the locals f and m (Go array assignment copies the value),
computes x, y, z, w from the copies, and only then writes the four cells
of the first argument. Because of the copies the function is a pure map
from the two prior matrix values to the new value of the first argument,
which is how it is embedded; each Go int product and sum is wrapped. -/
def fibMultiply (F M : Mat) : Mat :=
  let f := F
  let m := M
  let x := wrap (wrap (f.m00 * m.m00) + wrap (f.m01 * m.m10))
  let y := wrap (wrap (f.m00 * m.m01) + wrap (f.m01 * m.m11))
  let z := wrap (wrap (f.m10 * m.m00) + wrap (f.m11 * m.m10))
  let w := wrap (wrap (f.m10 * m.m01) + wrap (f.m11 * m.m11))
  ⟨x, y, z, w⟩

/-- The loop of fibPower, iterated k times: F = fibMultiply(F, M) with M
the base matrix. -/
def fibPowerLoop : ℕ → Mat → Mat
  | 0, F => F
  | k + 1, F => fibPowerLoop k (fibMultiply F baseM)

/-- fibPower from the repository: for i := 2; i <= n; i++ multiply F by
the base matrix in place. For nonnegative n the trip count of that loop
is n - 1 in truncated natural subtraction (zero when n is 0 or 1). -/
def fibPower (F : Mat) (n : ℕ) : Mat := fibPowerLoop (n - 1) F

/-- FibPowerMatrix from the repository: start from the base matrix,
return 0 when n == 0, otherwise run fibPower with exponent n-1 and return
the top-left entry F[0][0]. -/
def FibPowerMatrix (n : ℕ) : ℤ :=
  let F := baseM
  if n = 0 then 0 else (fibPower F (n - 1)).m00

/-- fibPowerRecursive from the repository: exponents 0 and 1 leave F
unchanged; otherwise recurse on n/2 (Go integer division), square the
result with fibMultiply(F, F), and multiply once more by the base matrix
M when n is odd. Lean accepts the recursion because n/2 < n for n at
least 2. -/
def fibPowerRecursive (F : Mat) (n : ℕ) : Mat :=
  if h : n = 0 ∨ n = 1 then F
  else
    let M := baseM
    let G := fibPowerRecursive F (n / 2)
    let G2 := fibMultiply G G
    if n % 2 ≠ 0 then fibMultiply G2 M else G2
termination_by n
decreasing_by omega

/-- FibPowerMatrixRecursive from the repository: start from the base
matrix, return 0 when n == 0, otherwise run fibPowerRecursive with
exponent n-1 and return the top-left entry. -/
def FibPowerMatrixRecursive (n : ℕ) : ℤ :=
  let F := baseM
  if n = 0 then 0 else (fibPowerRecursive F (n - 1)).m00

/-- Fuel-instrumented mirror of fibPowerRecursive: structurally recursive
on an explicit bound on the nesting depth of calls, returning none when
the bound is exhausted. It makes the termination and the call depth of
the source recursion into a provable statement, and lets concrete runs be
evaluated. -/
def fibPowerRecursiveFuel : ℕ → Mat → ℕ → Option Mat
  | 0, _, _ => none
  | fuel + 1, F, n =>
    if n = 0 ∨ n = 1 then some F
    else do
      let G ← fibPowerRecursiveFuel fuel F (n / 2)
      let G2 := fibMultiply G G
      some (if n % 2 ≠ 0 then fibMultiply G2 baseM else G2)

/-- FibPowerMatrixRecursive expressed through the fuel-instrumented
recursion, with fuel n, which is enough for exponent n-1. -/
def FibPowerMatrixRecursiveFuel (n : ℕ) : Option ℤ :=
  if n = 0 then some 0 else (fibPowerRecursiveFuel n baseM (n - 1)).map Mat.m00

/-- Modelled from the claim's words, for comparison with fibMultiply:
the standard product of two 2x2 matrices, each entry the dot product of a
row and a column, reduced into the Go int type. -/
def matMulStd (A B : Mat) : Mat :=
  ⟨wrap (A.m00 * B.m00 + A.m01 * B.m10), wrap (A.m00 * B.m01 + A.m01 * B.m11),
   wrap (A.m10 * B.m00 + A.m11 * B.m10), wrap (A.m10 * B.m01 + A.m11 * B.m11)⟩

/-- fibMultiply embedded with an explicit store of matrices and two
pointers pF and pM that may alias (as in the squaring call
fibMultiply(F, F)). Exactly as in the source, both pointed-to values are
read into the locals f and m before any cell of the pointee of pF is
written; the store after the call maps pF to the computed product and
leaves every other location unchanged. -/
def fibMultiplyStore (st : Bool → Mat) (pF pM : Bool) : Bool → Mat :=
  let f := st pF
  let m := st pM
  let x := wrap (wrap (f.m00 * m.m00) + wrap (f.m01 * m.m10))
  let y := wrap (wrap (f.m00 * m.m01) + wrap (f.m01 * m.m11))
  let z := wrap (wrap (f.m10 * m.m00) + wrap (f.m11 * m.m10))
  let w := wrap (wrap (f.m10 * m.m01) + wrap (f.m11 * m.m11))
  fun r => if r = pF then ⟨x, y, z, w⟩ else st r

lemma wrap_eq_self {x : ℤ} (h1 : -(2 ^ 63) ≤ x) (h2 : x < 2 ^ 63) : wrap x = x := by
  unfold wrap; omega

lemma wrap_emod (x : ℤ) : wrap x % 2 ^ 64 = x % 2 ^ 64 := by
  unfold wrap; omega

lemma wrap_congr {x y : ℤ} (h : x % 2 ^ 64 = y % 2 ^ 64) : wrap x = wrap y := by
  unfold wrap; omega

lemma wrap_add_wrap (x y : ℤ) : wrap (wrap x + wrap y) = wrap (x + y) := by
  apply wrap_congr
  have h1 := wrap_emod x
  have h2 := wrap_emod y
  omega

lemma fib_cast_add_two (k : ℕ) :
    (Nat.fib (k + 2) : ℤ) = (Nat.fib (k + 1) : ℤ) + (Nat.fib k : ℤ) := by
  rw [Nat.fib_add_two]; push_cast; ring

lemma fib_lt_of_le {n : ℕ} (h : n ≤ 92) : (Nat.fib n : ℤ) < 2 ^ 63 := by
  have h1 : Nat.fib n ≤ Nat.fib 92 := Nat.fib_mono h
  have h2 : Nat.fib 92 < 2 ^ 63 := by decide
  omega

lemma FibRecursive_exact : ∀ n : ℕ, n ≤ 92 → FibRecursive n = (Nat.fib n : ℤ) := by
  have key : ∀ n : ℕ, n + 1 ≤ 92 →
      FibRecursive n = (Nat.fib n : ℤ) ∧ FibRecursive (n + 1) = (Nat.fib (n + 1) : ℤ) := by
    intro n
    induction n with
    | zero => intro _; exact ⟨rfl, rfl⟩
    | succ m ih =>
      intro h
      obtain ⟨h1, h2⟩ := ih (by omega)
      refine ⟨h2, ?_⟩
      show wrap (FibRecursive (m + 1) + FibRecursive m) = _
      rw [h1, h2]
      have hsum : (Nat.fib (m + 1 + 1) : ℤ) = (Nat.fib (m + 1) : ℤ) + (Nat.fib m : ℤ) := by
        rw [show m + 1 + 1 = m + 2 from rfl, Nat.fib_add_two]; push_cast; ring
      have hlt := fib_lt_of_le (show m + 1 + 1 ≤ 92 by omega)
      rw [← hsum]
      exact wrap_eq_self (by omega) (by omega)
  intro n h
  match n with
  | 0 => rfl
  | m + 1 => exact (key m (by omega)).2

lemma fibTailRecursive_mod (n : ℕ) : ∀ (k : ℕ) (a b : ℤ),
    a % 2 ^ 64 = (Nat.fib k : ℤ) % 2 ^ 64 →
    b % 2 ^ 64 = (Nat.fib (k + 1) : ℤ) % 2 ^ 64 →
    fibTailRecursive n a b % 2 ^ 64 = (Nat.fib (k + n) : ℤ) % 2 ^ 64 := by
  induction n with
  | zero => intro k a b ha _; simpa [fibTailRecursive] using ha
  | succ m ih =>
    intro k a b ha hb
    show fibTailRecursive m b (wrap (a + b)) % 2 ^ 64 = _
    have hstep : wrap (a + b) % 2 ^ 64 = (Nat.fib (k + 1 + 1) : ℤ) % 2 ^ 64 := by
      have h1 := wrap_emod (a + b)
      have h2 := fib_cast_add_two k
      have h3 : (Nat.fib (k + 1 + 1) : ℤ) = (Nat.fib (k + 2) : ℤ) := by norm_num
      omega
    have hgoal := ih (k + 1) b (wrap (a + b)) hb hstep
    have h4 : k + 1 + m = k + (m + 1) := by omega
    rw [h4] at hgoal
    exact hgoal

lemma FibTailRecursive_mod (n : ℕ) :
    FibTailRecursive n % 2 ^ 64 = (Nat.fib n : ℤ) % 2 ^ 64 := by
  have h := fibTailRecursive_mod n 0 0 1 (by simp) (by simp)
  simpa [FibTailRecursive] using h

lemma fibIterLoop_mod (k : ℕ) : ∀ (j : ℕ) (a b : ℤ),
    a % 2 ^ 64 = (Nat.fib j : ℤ) % 2 ^ 64 →
    b % 2 ^ 64 = (Nat.fib (j + 1) : ℤ) % 2 ^ 64 →
    fibIterLoop k a b % 2 ^ 64 = (Nat.fib (j + k + 1) : ℤ) % 2 ^ 64 := by
  induction k with
  | zero => intro j a b _ hb; simpa [fibIterLoop] using hb
  | succ m ih =>
    intro j a b ha hb
    show fibIterLoop m b (wrap (a + b)) % 2 ^ 64 = _
    have hstep : wrap (a + b) % 2 ^ 64 = (Nat.fib (j + 1 + 1) : ℤ) % 2 ^ 64 := by
      have h1 := wrap_emod (a + b)
      have h2 := fib_cast_add_two j
      have h3 : (Nat.fib (j + 1 + 1) : ℤ) = (Nat.fib (j + 2) : ℤ) := by norm_num
      omega
    have hgoal := ih (j + 1) b (wrap (a + b)) hb hstep
    have h4 : j + 1 + m + 1 = j + (m + 1) + 1 := by omega
    rw [h4] at hgoal
    exact hgoal

lemma FibIterative_mod (n : ℕ) (h : 1 ≤ n) :
    FibIterative n % 2 ^ 64 = (Nat.fib n : ℤ) % 2 ^ 64 := by
  have hloop := fibIterLoop_mod (n - 1) 0 0 1 (by simp) (by simp)
  have hn : 0 + (n - 1) + 1 = n := by omega
  rw [hn] at hloop
  simpa [FibIterative] using hloop

set_option maxHeartbeats 1600000 in
lemma tail_exact : ∀ n < 93, FibTailRecursive n = (Nat.fib n : ℤ) := by decide

set_option maxHeartbeats 1600000 in
lemma iter_exact : ∀ n < 93, 1 ≤ n → FibIterative n = (Nat.fib n : ℤ) := by decide

set_option maxHeartbeats 1600000 in
lemma pm_exact : ∀ n < 93, FibPowerMatrix n = (Nat.fib n : ℤ) := by decide

lemma setAt_lt {l : List ℤ} {i : ℕ} (v : ℤ) (h : i < l.length) :
    setAt l i v = some (l.set i v) := by
  simp [setAt, h]

lemma fibRecursiveCache_spec (n : ℕ) : 1 ≤ n → ∀ cache : List ℤ,
    2 ≤ cache.length → n < cache.length →
    ∃ c, fibRecursiveCache n cache = some c ∧ c.length = cache.length ∧
      ∀ k, k ≤ n → c.get? k = some (FibRecursive k) := by
  induction n using Nat.strong_induction_on with
  | _ n ih =>
    match n with
    | 0 => intro h0; exact absurd h0 (by omega)
    | 1 =>
      intro _ cache hl hn
      refine ⟨(cache.set 0 0).set 1 1, ?_, by simp, ?_⟩
      · show (do
          let c ← setAt cache 0 0
          setAt c 1 1) = _
        rw [setAt_lt 0 (by omega)]
        show setAt (cache.set 0 0) 1 1 = _
        rw [setAt_lt 1 (by simp only [List.length_set]; omega)]
      · intro k hk
        match k with
        | 0 =>
          rw [List.get?_set_ne 1 (cache.set 0 0) (by omega),
            List.get?_set_eq_of_lt 0 (by omega)]
          rfl
        | 1 =>
          rw [List.get?_set_eq_of_lt 1 (by simp only [List.length_set]; omega)]
          rfl
    | m + 2 =>
      intro _ cache hl hn
      obtain ⟨c, hc, hlen, hvals⟩ :=
        ih (m + 1) (by omega) (by omega) cache hl (by omega)
      refine ⟨c.set (m + 2) (FibRecursive (m + 2)), ?_, by simp [hlen], ?_⟩
      · show (do
          let c ← fibRecursiveCache (m + 1) cache
          let a ← c.get? (m + 1)
          let b ← c.get? m
          setAt c (m + 2) (wrap (a + b))) = _
        rw [hc]
        show (do
          let a ← c.get? (m + 1)
          let b ← c.get? m
          setAt c (m + 2) (wrap (a + b))) = _
        rw [hvals (m + 1) (by omega), hvals m (by omega)]
        show setAt c (m + 2) (wrap (FibRecursive (m + 1) + FibRecursive m)) = _
        rw [setAt_lt _ (by omega)]
        rfl
      · intro k hk
        rcases Nat.lt_or_ge k (m + 2) with hlt | hge
        · rw [List.get?_set_ne (FibRecursive (m + 2)) c (by omega)]
          exact hvals k (by omega)
        · have hke : k = m + 2 := by omega
          subst hke
          rw [List.get?_set_eq_of_lt _ (by omega)]

lemma FibRecursiveCache_eq (n : ℕ) (h : 1 ≤ n) :
    FibRecursiveCache n = some (FibRecursive n) := by
  obtain ⟨c, hc, hlen, hvals⟩ := fibRecursiveCache_spec n h (List.replicate (n + 1) 0)
    (by simp only [List.length_replicate]; omega) (by simp only [List.length_replicate]; omega)
  show (do
    let c ← fibRecursiveCache n (List.replicate (n + 1) 0)
    c.get? n) = _
  rw [hc]
  show c.get? n = _
  exact hvals n (by omega)

lemma fibPowerRecursive_base {n : ℕ} (h : n = 0 ∨ n = 1) (F : Mat) :
    fibPowerRecursive F n = F := by
  rw [fibPowerRecursive]
  simp [h]

lemma fibPowerRecursive_step {n : ℕ} (h : ¬(n = 0 ∨ n = 1)) (F : Mat) :
    fibPowerRecursive F n =
      (if n % 2 ≠ 0 then fibMultiply (fibMultiply (fibPowerRecursive F (n / 2))
          (fibPowerRecursive F (n / 2))) baseM
       else fibMultiply (fibPowerRecursive F (n / 2)) (fibPowerRecursive F (n / 2))) := by
  rw [fibPowerRecursive]
  simp [h]

lemma fibPowerRecursiveFuel_spec :
    ∀ (fuel n : ℕ), n < fuel → ∀ F : Mat,
      fibPowerRecursiveFuel fuel F n = some (fibPowerRecursive F n) := by
  intro fuel
  induction fuel with
  | zero => intro n hn; omega
  | succ m ih =>
    intro n hn F
    by_cases h : n = 0 ∨ n = 1
    · show (if n = 0 ∨ n = 1 then some F else _) = _
      rw [if_pos h, fibPowerRecursive_base h]
    · show (if n = 0 ∨ n = 1 then some F else do
        let G ← fibPowerRecursiveFuel m F (n / 2)
        let G2 := fibMultiply G G
        some (if n % 2 ≠ 0 then fibMultiply G2 baseM else G2)) = _
      rw [if_neg h, ih (n / 2) (by omega) F, fibPowerRecursive_step h]
      rfl

lemma FibPowerMatrixRecursiveFuel_eq (n : ℕ) :
    FibPowerMatrixRecursiveFuel n = some (FibPowerMatrixRecursive n) := by
  unfold FibPowerMatrixRecursiveFuel FibPowerMatrixRecursive
  by_cases h : n = 0
  · simp [h]
  · rw [if_neg h, if_neg h, fibPowerRecursiveFuel_spec n (n - 1) (by omega) baseM]
    rfl

set_option maxHeartbeats 1600000 in
lemma pmrFuel_exact : ∀ n < 93, FibPowerMatrixRecursiveFuel n = some (Nat.fib n : ℤ) := by
  decide

lemma pmr_exact {n : ℕ} (h : n ≤ 92) :
    FibPowerMatrixRecursive n = (Nat.fib n : ℤ) := by
  have h1 := pmrFuel_exact n (by omega)
  have h2 := FibPowerMatrixRecursiveFuel_eq n
  rw [h1] at h2
  exact (Option.some.inj h2).symm

set_option maxHeartbeats 1600000 in
lemma pmrFuel_agree : ∀ n < 201, FibPowerMatrixRecursiveFuel n = some (FibPowerMatrix n) := by
  decide

lemma pm_pmr_agree {n : ℕ} (h : n ≤ 200) :
    FibPowerMatrix n = FibPowerMatrixRecursive n := by
  have h1 := pmrFuel_agree n (by omega)
  have h2 := FibPowerMatrixRecursiveFuel_eq n
  rw [h1] at h2
  exact Option.some.inj h2

set_option maxHeartbeats 1600000 in
lemma pmrFuel_93 : FibPowerMatrixRecursiveFuel 93 ≠ some (Nat.fib 93 : ℤ) := by decide

lemma fibMultiply_eq_matMulStd (A B : Mat) : fibMultiply A B = matMulStd A B := by
  simp only [fibMultiply, matMulStd, wrap_add_wrap]

lemma fibMultiplyStore_read (st : Bool → Mat) (pF pM : Bool) :
    fibMultiplyStore st pF pM pF = matMulStd (st pF) (st pM) := by
  simp only [fibMultiplyStore, matMulStd, if_pos, wrap_add_wrap]

/-- Claim C1, corrected for 64-bit overflow: the claim quantifies over
every n at least 1, but past n = 92 the returned Go int wraps and differs
from F(n); this theorem is the amended statement. FibIterative returns
F(n) for every n from 1 to 92, and for n = 0 the loop guard i < n-1 gives
a zero trip count, so the initial second = 1 is returned instead of
F(0) = 0. -/
theorem c1_fibIterative_amended :
    FibIterative 0 = 1 ∧
      ∀ n : ℕ, 1 ≤ n → n ≤ 92 → FibIterative n = (Nat.fib n : ℤ) :=
  ⟨rfl, fun n h1 h2 => iter_exact n (by omega) h1⟩

/-- Witness for C1 at n = 10: the hypotheses of the amended theorem are
satisfiable and F(10) is returned. -/
theorem c1_witness :
    (1 ≤ 10 ∧ 10 ≤ 92) ∧ FibIterative 10 = (Nat.fib 10 : ℤ) :=
  ⟨by norm_num, c1_fibIterative_amended.2 10 (by norm_num) (by norm_num)⟩

/-- Counterexample to C1 as stated: at n = 93 the true F(93) exceeds
2^63 - 1, the 64-bit value wraps negative, and FibIterative(93) is not
F(93). -/
theorem c1_counterexample : FibIterative 93 ≠ (Nat.fib 93 : ℤ) := by decide

/-- Claim C2 names a code bug: the claim (and the spec's base-case table)
says FibRecursiveCache(0) = 0, but the code allocates a slice of length
0 + 1 = 1 and its helper then unconditionally writes index 1, an
out-of-range access on which Go panics — modelled here as none. For every
n from 1 to 92 the function does return F(n) as the spec intends. -/
theorem c2_cache_zero_bug :
    FibRecursiveCache 0 = none ∧
      ∀ n : ℕ, 1 ≤ n → n ≤ 92 → FibRecursiveCache n = some (Nat.fib n : ℤ) := by
  refine ⟨by decide, fun n h1 h2 => ?_⟩
  rw [FibRecursiveCache_eq n h1, FibRecursive_exact n (by omega)]

/-- Witness for C2 at n = 10: the hypotheses of the positive part are
satisfiable. -/
theorem c2_witness :
    (1 ≤ 10 ∧ 10 ≤ 92) ∧ FibRecursiveCache 10 = some (Nat.fib 10 : ℤ) :=
  ⟨by norm_num, c2_cache_zero_bug.2 10 (by norm_num) (by norm_num)⟩

/-- Claim C3, corrected for 64-bit overflow: the claim quantifies over
every n at least 0, but past n = 92 the wrapped matrix entries differ
from the true Fibonacci values; this theorem is the amended statement.
FibPowerMatrixRecursive returns F(n) for every n from 0 to 92, with n = 0
short-circuited to 0 and otherwise the top-left entry of the (n-1)th
power of the base matrix computed by recursive halving. -/
theorem c3_fibPowerMatrixRecursive_amended :
    ∀ n : ℕ, n ≤ 92 → FibPowerMatrixRecursive n = (Nat.fib n : ℤ) :=
  fun _ h => pmr_exact h

/-- Witness for C3 at n = 20. -/
theorem c3_witness :
    20 ≤ 92 ∧ FibPowerMatrixRecursive 20 = (Nat.fib 20 : ℤ) :=
  ⟨by norm_num, c3_fibPowerMatrixRecursive_amended 20 (by norm_num)⟩

/-- Counterexample to C3 as stated: at n = 93 the wrapped top-left entry
differs from the true F(93). -/
theorem c3_counterexample : FibPowerMatrixRecursive 93 ≠ (Nat.fib 93 : ℤ) := by
  intro hcon
  apply pmrFuel_93
  rw [FibPowerMatrixRecursiveFuel_eq 93, hcon]

/-- Claim C4: the linear matrix variant and the logarithmic matrix
variant return the same value for every n from 0 to 200 (they agree even
where both have wrapped, since both compute the same power of the base
matrix in the same wrapping arithmetic). -/
theorem c4_matrix_power_equivalence :
    ∀ n : ℕ, n ≤ 200 → FibPowerMatrix n = FibPowerMatrixRecursive n :=
  fun _ h => pm_pmr_agree h

/-- Witness for C4 at n = 200. -/
theorem c4_witness :
    200 ≤ 200 ∧ FibPowerMatrix 200 = FibPowerMatrixRecursive 200 :=
  ⟨by norm_num, c4_matrix_power_equivalence 200 (by norm_num)⟩

/-- Claim C5 names a code bug: the claim allows only FibIterative to
deviate at n = 0, but FibRecursiveCache(0) panics (none) while the other
variants return values, so the six variants do not all return identical
results at n = 0. Away from the failing input the claim holds: this
theorem records the values of all six variants at n = 0, the agreement of
all six on 1..40, and the agreement of the five non-exponential variants
on 1..90. -/
theorem c5_equivalence_with_cache_bug :
    (FibRecursiveCache 0 = none ∧ FibRecursive 0 = 0 ∧ FibTailRecursive 0 = 0 ∧
      FibIterative 0 = 1 ∧ FibPowerMatrix 0 = 0 ∧ FibPowerMatrixRecursive 0 = 0) ∧
    (∀ n : ℕ, 1 ≤ n → n ≤ 40 →
      FibRecursive n = FibIterative n ∧ FibTailRecursive n = FibIterative n ∧
      FibRecursiveCache n = some (FibIterative n) ∧
      FibPowerMatrix n = FibIterative n ∧ FibPowerMatrixRecursive n = FibIterative n) ∧
    (∀ n : ℕ, 1 ≤ n → n ≤ 90 →
      FibTailRecursive n = FibIterative n ∧
      FibRecursiveCache n = some (FibIterative n) ∧
      FibPowerMatrix n = FibIterative n ∧ FibPowerMatrixRecursive n = FibIterative n) := by
  refine ⟨⟨by decide, rfl, rfl, rfl, rfl, rfl⟩, fun n h1 h2 => ?_, fun n h1 h2 => ?_⟩
  · have hi := iter_exact n (by omega) h1
    refine ⟨?_, ?_, ?_, ?_, ?_⟩
    · rw [hi]; exact FibRecursive_exact n (by omega)
    · rw [hi]; exact tail_exact n (by omega)
    · rw [hi, FibRecursiveCache_eq n h1, FibRecursive_exact n (by omega)]
    · rw [hi]; exact pm_exact n (by omega)
    · rw [hi]; exact pmr_exact (by omega)
  · have hi := iter_exact n (by omega) h1
    refine ⟨?_, ?_, ?_, ?_⟩
    · rw [hi]; exact tail_exact n (by omega)
    · rw [hi, FibRecursiveCache_eq n h1, FibRecursive_exact n (by omega)]
    · rw [hi]; exact pm_exact n (by omega)
    · rw [hi]; exact pmr_exact (by omega)

/-- Witness for C5 at n = 10: the hypotheses of the bounded equivalence
parts are satisfiable. -/
theorem c5_witness :
    (1 ≤ 10 ∧ 10 ≤ 40) ∧ FibRecursive 10 = FibIterative 10 :=
  ⟨by norm_num, (c5_equivalence_with_cache_bug.2.1 10 (by norm_num) (by norm_num)).1⟩

/-- Claim C6, corrected for 64-bit overflow: the claim quantifies over
every n at least 0, but past n = 92 the accumulator wraps and the result
differs from F(n); this theorem is the amended statement. FibTailRecursive
returns F(n) for every n from 0 to 92; the helper returns first when
n = 0 and otherwise recurses on n-1 with the pair shifted to
(second, first+second), as the definitional equations record. -/
theorem c6_fibTailRecursive_amended :
    (∀ n : ℕ, n ≤ 92 → FibTailRecursive n = (Nat.fib n : ℤ)) ∧
    (∀ a b : ℤ, fibTailRecursive 0 a b = a) ∧
    (∀ (n : ℕ) (a b : ℤ),
      fibTailRecursive (n + 1) a b = fibTailRecursive n b (wrap (a + b))) :=
  ⟨fun n h => tail_exact n (by omega), fun _ _ => rfl, fun _ _ _ => rfl⟩

/-- Witness for C6 at n = 10. -/
theorem c6_witness :
    10 ≤ 92 ∧ FibTailRecursive 10 = (Nat.fib 10 : ℤ) :=
  ⟨by norm_num, c6_fibTailRecursive_amended.1 10 (by norm_num)⟩

/-- Counterexample to C6 as stated: at n = 93 the returned wrapped value
differs from the true F(93). -/
theorem c6_counterexample : FibTailRecursive 93 ≠ (Nat.fib 93 : ℤ) := by decide

/-- Claim C7: with every arithmetic operation wrapped at 64 bits, both
FibIterative and FibTailRecursive are congruent to the true F(n) modulo
2^64 for every n at least 1; they equal F(n) exactly up to n = 92, and at
n = 93 (where F first exceeds the signed range) both return a value
different from the true F(93), with no error signalled — the functions
are total. -/
theorem c7_wrapping :
    (∀ n : ℕ, 1 ≤ n →
      FibIterative n % 2 ^ 64 = (Nat.fib n : ℤ) % 2 ^ 64 ∧
      FibTailRecursive n % 2 ^ 64 = (Nat.fib n : ℤ) % 2 ^ 64) ∧
    (∀ n : ℕ, 1 ≤ n → n ≤ 92 →
      FibIterative n = (Nat.fib n : ℤ) ∧ FibTailRecursive n = (Nat.fib n : ℤ)) ∧
    (FibIterative 93 ≠ (Nat.fib 93 : ℤ) ∧ FibTailRecursive 93 ≠ (Nat.fib 93 : ℤ)) := by
  refine ⟨fun n h => ⟨FibIterative_mod n h, FibTailRecursive_mod n⟩,
    fun n h1 h2 => ⟨iter_exact n (by omega) h1, tail_exact n (by omega)⟩,
    by decide, by decide⟩

/-- Witness for C7 at n = 5. -/
theorem c7_witness :
    1 ≤ 5 ∧ FibIterative 5 % 2 ^ 64 = (Nat.fib 5 : ℤ) % 2 ^ 64 :=
  ⟨by norm_num, (c7_wrapping.1 5 (by norm_num)).1⟩

/-- Claim C8: for n = 0 the helper's unconditional write of index 1 into
the length-1 slice is out of range, so FibRecursiveCache(0) produces no
value (the Go program panics, modelled as none); for every n at least 1
every slice access is in bounds — no none is ever produced along the
computation — and a value is returned. -/
theorem c8_cache_safety :
    FibRecursiveCache 0 = none ∧
      ∀ n : ℕ, 1 ≤ n → (FibRecursiveCache n).isSome = true := by
  refine ⟨by decide, fun n h => ?_⟩
  rw [FibRecursiveCache_eq n h]
  rfl

/-- Witness for C8 at n = 5. -/
theorem c8_witness : 1 ≤ 5 ∧ (FibRecursiveCache 5).isSome = true :=
  ⟨by norm_num, c8_cache_safety.2 5 (by norm_num)⟩

/-- Claim C9: fibMultiply reads both pointed-to matrices into locals
before writing any cell, so after the call — through any pair of
pointers, aliased or not, as in the squaring call fibMultiply(F, F) — the
first pointee holds exactly the standard matrix product of the two
operands' prior values; equivalently, the pure value map coincides with
the standard 2x2 product in the same wrapping arithmetic. -/
theorem c9_fibMultiply_standard_product :
    (∀ (st : Bool → Mat) (pF pM : Bool),
      fibMultiplyStore st pF pM pF = matMulStd (st pF) (st pM)) ∧
    (∀ A B : Mat, fibMultiply A B = matMulStd A B) :=
  ⟨fibMultiplyStore_read, fibMultiply_eq_matMulStd⟩

/-- Claim C10: fibPowerRecursive terminates for every exponent: the
exponents 0 and 1 are base cases, and the single recursive call is on
n/2, strictly below n for n at least 2, so the call depth is bounded —
running the fuel-instrumented mirror of the recursion with fuel n + 1
never exhausts the fuel and returns exactly the value of the function. -/
theorem c10_fibPowerRecursive_terminates :
    (∀ F : Mat, fibPowerRecursive F 0 = F ∧ fibPowerRecursive F 1 = F) ∧
    (∀ (F : Mat) (n : ℕ),
      fibPowerRecursiveFuel (n + 1) F n = some (fibPowerRecursive F n)) :=
  ⟨fun F => ⟨fibPowerRecursive_base (Or.inl rfl) F, fibPowerRecursive_base (Or.inr rfl) F⟩,
    fun F n => fibPowerRecursiveFuel_spec (n + 1) n (by omega) F⟩

end Fib
